import Mathlib

/-!
A shallow embedding of the CoralVM virtual machine (`src/main.rs`):
the memory/region model, the 8-byte instruction codec, the mov handler
and the fetch-decode-execute loop, together with proofs of the spec's
testable properties.

Modelling conventions:
* `u8` / `u32` / `usize` values are `Nat`; where a claim ranges over all
  machine values, hypotheses such as `< 256` or `< 2 ^ 32` bound them.
* `i32` values (registers, instruction pointer) are `Int`.
* A Rust panic (out-of-bounds `Vec` indexing or slicing) is `none` /
  `RunOutcome.panic`; a returned `Err` is an explicit error value carrying
  the state at the moment of the error, mirroring `&mut self` mutation.
-/

/-- `SectionType` from the source: regions are `Data` or `Code`. -/
inductive SectionType where
  | Data : SectionType
  | Code : SectionType
deriving DecidableEq, Repr

/-- `Memory`: a byte buffer plus the list of `(kind, start, end)` regions. -/
structure Memory where
  memory : List Nat
  regions : List (SectionType × Nat × Nat)
deriving DecidableEq, Repr

/-- `clamp` from the source: `if n > max { max } else { n }`. -/
def clamp (n max : Nat) : Nat :=
  if n > max then max else n

/-- `u32::MAX` as a natural number. -/
def U32_MAX : Nat := 2 ^ 32 - 1

/-- `Memory::new`: a zero-filled buffer of the clamped size; the region list
defaults to a single `Data` region `(Data, 0, size.unwrap_or(0))` built from
the unclamped size. -/
def Memory.new (size : Option Nat)
    (regions : Option (List (SectionType × Nat × Nat))) : Memory :=
  { memory := List.replicate (clamp (size.getD 0) U32_MAX) 0
    regions := regions.getD [(SectionType.Data, 0, size.getD 0)] }

/-- `Memory::get_range`: the `(start, end)` pairs of the regions whose kind
matches, in declaration order. -/
def Memory.get_range (m : Memory) (stype : SectionType) : List (Nat × Nat) :=
  (m.regions.filter (fun f => f.1 = stype)).map (fun r => (r.2.1, r.2.2))

/-- `Registers`: four general-purpose `i32` registers and the instruction
pointer `rip`. -/
structure Registers where
  r1 : Int
  r2 : Int
  r3 : Int
  r4 : Int
  rip : Int
deriving DecidableEq, Repr

/-- `Flags`: zero, overflow and trap flags. -/
structure Flags where
  zf : Bool
  of : Bool
  tf : Bool
deriving DecidableEq, Repr

/-- `CPU`: memory, registers and flags. -/
structure CPU where
  ram : Memory
  registers : Registers
  flags : Flags
deriving DecidableEq, Repr

/-- `CPU::new`: memory from the given parameters, registers and flags
zero / false (the `Default` derive in the source). -/
def CPU.new (size : Option Nat)
    (regions : Option (List (SectionType × Nat × Nat))) : CPU :=
  { ram := Memory.new size regions
    registers := { r1 := 0, r2 := 0, r3 := 0, r4 := 0, rip := 0 }
    flags := { zf := false, of := false, tf := false } }

/-- `Instruction`: the decoded form of the 8-byte wire format. -/
structure Instruction where
  mnemonic : Nat
  modifier : Nat
  register_from : Nat
  register_to : Nat
  data : Nat
deriving DecidableEq, Repr

/-- `Instruction::new`. -/
def Instruction.new (mnemonic modifier register_from register_to data : Nat) :
    Instruction :=
  { mnemonic := mnemonic, modifier := modifier, register_from := register_from
    register_to := register_to, data := data }

/-- `u32::to_be_bytes`: the four big-endian bytes of a 32-bit value. -/
def u32ToBeBytes (d : Nat) : List Nat :=
  [d / 2 ^ 24 % 256, d / 2 ^ 16 % 256, d / 2 ^ 8 % 256, d % 256]

/-- `u32::from_be_bytes`: reassemble a 32-bit value from four bytes. -/
def u32FromBeBytes (a b c d : Nat) : Nat :=
  a * 2 ^ 24 + b * 2 ^ 16 + c * 2 ^ 8 + d

/-- `data as i32`: reinterpret a `u32` value as a signed 32-bit integer. -/
def u32ToI32 (d : Nat) : Int :=
  if d < 2 ^ 31 then (d : Int) else (d : Int) - 2 ^ 32

/-- `start as usize`: an `i32` cast to the 64-bit `usize` (two's complement). -/
def i32ToUsize (n : Int) : Nat :=
  (n % 2 ^ 64).toNat

/-- `Instruction::as_bytes`: mnemonic, modifier, register_from, register_to,
then the data in big-endian order. -/
def Instruction.as_bytes (x : Instruction) : List Nat :=
  [x.mnemonic, x.modifier, x.register_from, x.register_to] ++ u32ToBeBytes x.data

/-- `bytes.as_slice().try_into()` for a `[u8; 4]` target: succeeds exactly
when the slice has four elements. -/
def tryIntoArr4 (bytes : List Nat) : Option (Nat × Nat × Nat × Nat) :=
  match bytes with
  | [a, b, c, d] => some (a, b, c, d)
  | _ => none

/-- The loop body of `Instruction::parse`: at index `i < 4` the field is set
from `bytes[0]` and the vector is shifted by one; at `i = 4` the remaining
four bytes become the big-endian `data` and the loop breaks. `fuel` is the
iteration count of `for i in 0..bytes.len()`. -/
def parseLoop : Nat → Nat → List Nat → Instruction → Option Instruction
  | 0, _, _, x => some x
  | fuel + 1, i, bytes, x =>
    let x :=
      match i with
      | 0 => { x with mnemonic := bytes.headD 0 }
      | 1 => { x with modifier := bytes.headD 0 }
      | 2 => { x with register_from := bytes.headD 0 }
      | 3 => { x with register_to := bytes.headD 0 }
      | _ => x
    if i = 4 then
      match tryIntoArr4 bytes with
      | some (a, b, c, d) => some { x with data := u32FromBeBytes a b c d }
      | none => none
    else parseLoop fuel (i + 1) bytes.tail x

/-- `Instruction::parse`: reject any input whose length is not 8, then run
the shifting field-extraction loop. -/
def Instruction.parse (bytes : List Nat) : Option Instruction :=
  if bytes.length ≠ 8 then none
  else parseLoop bytes.length 0 bytes (Instruction.new 0 0 0 0 0)

/-- The execute-time errors of the source, by format string; each carries
the values interpolated into the message. -/
inductive ExecError where
  | invalidMnemonic (mnemonic : Nat) (address : Int)
  | invalidModifier (modifier : Nat) (address : Int)
  | invalidRegister (register : Nat) (address : Int)
  | nonZeroReservedByte (address : Int)
deriving DecidableEq, Repr

/-- The trailing `register_from` check of `Instruction::mov`, run after the
destination register has already been written. -/
def movCheckReserved (instr : Instruction) (ctx : CPU) : CPU × Option ExecError :=
  if instr.register_from ≠ 0 then
    (ctx, some (ExecError.nonZeroReservedByte (ctx.registers.rip + 2)))
  else (ctx, none)

/-- `Instruction::mov`: modifier `0x0` writes `data as i32` into the register
selected by `register_to` (ids 0-3), then checks the reserved `register_from`
byte; other modifiers and register ids fail. The returned `CPU` is the state
after the call, mutations included, mirroring `&mut self`. -/
def Instruction.mov (instr : Instruction) (ctx : CPU) : CPU × Option ExecError :=
  match instr.modifier with
  | 0 =>
    match instr.register_to with
    | 0 => movCheckReserved instr
        { ctx with registers := { ctx.registers with r1 := u32ToI32 instr.data } }
    | 1 => movCheckReserved instr
        { ctx with registers := { ctx.registers with r2 := u32ToI32 instr.data } }
    | 2 => movCheckReserved instr
        { ctx with registers := { ctx.registers with r3 := u32ToI32 instr.data } }
    | 3 => movCheckReserved instr
        { ctx with registers := { ctx.registers with r4 := u32ToI32 instr.data } }
    | _ => (ctx, some (ExecError.invalidRegister instr.register_to
        (ctx.registers.rip + 3)))
  | _ => (ctx, some (ExecError.invalidModifier instr.modifier
      (ctx.registers.rip + 1)))

/-- `CPU::execute`: dispatch on the mnemonic; `0x1` is mov, anything else is
an invalid-mnemonic error tagged with the current `rip`. -/
def CPU.execute (cpu : CPU) (instruction : Instruction) : CPU × Option ExecError :=
  match instruction.mnemonic with
  | 1 => instruction.mov cpu
  | _ => (cpu, some (ExecError.invalidMnemonic instruction.mnemonic
      cpu.registers.rip))

/-- The iteration count of `(s..e).step_by(8)`. -/
def numSteps (s e : Nat) : Nat :=
  (e - s + 7) / 8

/-- The addresses visited by `(s..e).step_by(8)`, in order. -/
def stepAddrs (s e : Nat) : List Nat :=
  (List.range (numSteps s e)).map (fun k => s + 8 * k)

/-- The inner write of `CPU::append`:
`for i in 0..8 { memory[byte + i] = instruction.as_bytes()[i] }`.
`none` is the panic on an out-of-bounds write. -/
def writeBytes : List Nat → Nat → List Nat → Option (List Nat)
  | mem, _, [] => some mem
  | mem, base, b :: rest =>
    if base < mem.length then writeBytes (mem.set base b) (base + 1) rest
    else none

/-- The scan loop of `CPU::append` over the step addresses: the first slot
whose first byte reads zero receives the instruction bytes; a fall-through
is the silent no-op; `none` is the panic on an out-of-bounds read. -/
def appendLoop (instrBytes : List Nat) : List Nat → List Nat → Option (List Nat)
  | mem, [] => some mem
  | mem, addr :: rest =>
    match mem[addr]? with
    | none => none
    | some b =>
      if b = 0 then writeBytes mem addr instrBytes
      else appendLoop instrBytes mem rest

/-- `CPU::append`: index the first Code range (`none` models the `range[0]`
panic when there is none) and run the scan loop over its step addresses. -/
def CPU.append (cpu : CPU) (instruction : Instruction) : Option CPU :=
  match cpu.ram.get_range SectionType.Code with
  | [] => none
  | (s, e) :: _ =>
    match appendLoop instruction.as_bytes cpu.ram.memory (stepAddrs s e) with
    | none => none
    | some mem => some { cpu with ram := { cpu.ram with memory := mem } }

/-- `CPU::fetch`: the 8 bytes `memory[start..start + 8]`; `none` models the
slicing panic when `start + 8` exceeds the memory length. -/
def CPU.fetch (cpu : CPU) (start : Int) : Option (List Nat) :=
  let s := i32ToUsize start
  if s + 8 ≤ cpu.ram.memory.length then
    some ((cpu.ram.memory.drop s).take 8)
  else none

/-- `CPU::decode`: a thin wrapper over `Instruction::parse`. -/
def CPU.decode (bytes : List Nat) : Option Instruction :=
  Instruction.parse bytes

/-- The errors `CPU::run` can return: the decode-failure message or a
propagated execute error. -/
inductive RunError where
  | decodeFailure : RunError
  | exec (e : ExecError) : RunError
deriving DecidableEq, Repr

/-- How a call to `CPU::run` can end: normal return, an `Err` (with the CPU
state at that moment, since `run` borrows `&mut self`), or a panic. -/
inductive RunOutcome where
  | ok (cpu : CPU) : RunOutcome
  | error (e : RunError) (cpu : CPU) : RunOutcome
  | panic : RunOutcome
deriving DecidableEq, Repr

/-- The loop body of `CPU::run`, iterated once per step address: fetch at
`rip`, decode, execute, then advance `rip` by 8. -/
def runLoop : CPU → Nat → RunOutcome
  | cpu, 0 => RunOutcome.ok cpu
  | cpu, steps + 1 =>
    match cpu.fetch cpu.registers.rip with
    | none => RunOutcome.panic
    | some bytes =>
      match CPU.decode bytes with
      | none => RunOutcome.error RunError.decodeFailure cpu
      | some i =>
        match cpu.execute i with
        | (cpu', some e) => RunOutcome.error (RunError.exec e) cpu'
        | (cpu', none) =>
          runLoop
            { cpu' with registers := { cpu'.registers with
                rip := cpu'.registers.rip + 8 } }
            steps

/-- `CPU::run`: index the first Code range (`none` models the `range[0]`
panic) and run the loop once per step address of that range. -/
def CPU.run (cpu : CPU) : RunOutcome :=
  match cpu.ram.get_range SectionType.Code with
  | [] => RunOutcome.panic
  | (s, e) :: _ => runLoop cpu (numSteps s e)

/-- Evaluating the parse loop on an explicit 8-byte list: the first four
bytes become the four 1-byte fields and the last four the big-endian data. -/
theorem parse_cons_eight (b0 b1 b2 b3 b4 b5 b6 b7 : Nat) :
    Instruction.parse [b0, b1, b2, b3, b4, b5, b6, b7] =
      some (Instruction.new b0 b1 b2 b3 (u32FromBeBytes b4 b5 b6 b7)) := by
  rfl

/-- Re-encoding the four big-endian bytes of a byte quadruple gives back the
quadruple. -/
theorem u32ToBeBytes_u32FromBeBytes (a b c d : Nat)
    (ha : a < 256) (hb : b < 256) (hc : c < 256) (hd : d < 256) :
    u32ToBeBytes (u32FromBeBytes a b c d) = [a, b, c, d] := by
  simp only [u32ToBeBytes, u32FromBeBytes, List.cons.injEq, and_true]
  refine ⟨?_, ?_, ?_, ?_⟩ <;> omega

/-- Reassembling the big-endian bytes of a 32-bit value gives back the
value. -/
theorem u32FromBeBytes_u32ToBeBytes (d : Nat) (hd : d < 2 ^ 32) :
    u32FromBeBytes (d / 2 ^ 24 % 256) (d / 2 ^ 16 % 256) (d / 2 ^ 8 % 256)
      (d % 256) = d := by
  simp only [u32FromBeBytes]
  omega

/-- C6: decode fails exactly on inputs whose length is not 8: every sequence
of length ≠ 8 is rejected, and every sequence of length 8 decodes
successfully whatever its field values. -/
theorem c6_length_guard (bs : List Nat) :
    (Instruction.parse bs).isSome ↔ bs.length = 8 := by
  constructor
  · intro h
    by_contra hlen
    simp [Instruction.parse, hlen] at h
  · intro h
    rcases bs with _ | ⟨b0, _ | ⟨b1, _ | ⟨b2, _ | ⟨b3, _ | ⟨b4, _ | ⟨b5, _ |
      ⟨b6, _ | ⟨b7, _ | ⟨b8, bs⟩⟩⟩⟩⟩⟩⟩⟩⟩ <;> simp_all [List.length]
    simp [parse_cons_eight]

/-- C3: the codec round-trips. Decoding any 8-byte sequence succeeds and
re-encoding it reproduces the 8 bytes exactly; encoding any field tuple via
`as_bytes` and decoding via `parse` reproduces the tuple exactly (data is
laid out big-endian in bytes 4-7). -/
theorem c3_codec_round_trip :
    (∀ bs : List Nat, bs.length = 8 → (∀ b ∈ bs, b < 256) →
      ∃ i, Instruction.parse bs = some i ∧ i.as_bytes = bs) ∧
    (∀ m md rf rt d : Nat, d < 2 ^ 32 →
      Instruction.parse (Instruction.new m md rf rt d).as_bytes =
        some (Instruction.new m md rf rt d)) := by
  constructor
  · intro bs hlen hbytes
    rcases bs with _ | ⟨b0, _ | ⟨b1, _ | ⟨b2, _ | ⟨b3, _ | ⟨b4, _ | ⟨b5, _ |
      ⟨b6, _ | ⟨b7, _ | ⟨b8, bs⟩⟩⟩⟩⟩⟩⟩⟩⟩ <;> simp_all [List.length]
    refine ⟨Instruction.new b0 b1 b2 b3 (u32FromBeBytes b4 b5 b6 b7),
      parse_cons_eight b0 b1 b2 b3 b4 b5 b6 b7, ?_⟩
    simp [Instruction.as_bytes, Instruction.new,
      u32ToBeBytes_u32FromBeBytes b4 b5 b6 b7
        hbytes.2.2.2.2.1 hbytes.2.2.2.2.2.1
        hbytes.2.2.2.2.2.2.1 hbytes.2.2.2.2.2.2.2]
  · intro m md rf rt d hd
    show Instruction.parse ([m, md, rf, rt] ++ u32ToBeBytes d) = _
    simp only [u32ToBeBytes, List.cons_append, List.nil_append,
      parse_cons_eight, u32FromBeBytes_u32ToBeBytes d hd]

/-- Witness for C3 at the concrete byte string 01 02 03 04 05 06 07 08 and
the concrete tuple (9, 8, 7, 6, 0x12345678). -/
theorem c3_codec_round_trip_witness :
    (∃ i, Instruction.parse [1, 2, 3, 4, 5, 6, 7, 8] = some i ∧
      i.as_bytes = [1, 2, 3, 4, 5, 6, 7, 8]) ∧
    Instruction.parse (Instruction.new 9 8 7 6 305419896).as_bytes =
      some (Instruction.new 9 8 7 6 305419896) :=
  ⟨c3_codec_round_trip.1 [1, 2, 3, 4, 5, 6, 7, 8] (by decide) (by decide),
   c3_codec_round_trip.2 9 8 7 6 305419896 (by norm_num)⟩

/-- The destination-register write of the mov handler as a function of the
register id: ids 0-3 select r1-r4, anything else writes nothing. -/
def setReg (r : Registers) (rt : Nat) (v : Int) : Registers :=
  match rt with
  | 0 => { r with r1 := v }
  | 1 => { r with r2 := v }
  | 2 => { r with r3 := v }
  | 3 => { r with r4 := v }
  | _ => r

/-- C4: a mov with modifier 0, register_from 0 and register_to in 0-3
succeeds, stores `data` reinterpreted as a signed 32-bit integer in the
selected register, and changes nothing else — in particular the flags. -/
theorem c4_mov_success (cpu : CPU) (rt d : Nat) (hrt : rt < 4) :
    cpu.execute (Instruction.new 1 0 0 rt d) =
      ({ cpu with registers := setReg cpu.registers rt (u32ToI32 d) }, none) := by
  rcases rt with _ | _ | _ | _ | rt
  · rfl
  · rfl
  · rfl
  · rfl
  · omega

/-- Witness for C4: register id 1 with data 1337 on a fresh CPU. -/
theorem c4_mov_success_witness :
    (CPU.new none none).execute (Instruction.new 1 0 0 1 1337) =
      ({ CPU.new none none with
          registers := setReg (CPU.new none none).registers 1 (u32ToI32 1337) },
        none) :=
  c4_mov_success (CPU.new none none) 1 1337 (by decide)

/-- C5: a mov whose register_to is outside 0-3 fails with an invalid-register
error tagged `rip + 3` and leaves the CPU (in particular every register)
unchanged, whatever register_from and data are. -/
theorem c5_mov_register_bound (cpu : CPU) (rf rt d : Nat)
    (hrt : 4 ≤ rt) (hrt256 : rt < 256) :
    cpu.execute (Instruction.new 1 0 rf rt d) =
      (cpu, some (ExecError.invalidRegister rt (cpu.registers.rip + 3))) := by
  obtain ⟨k, rfl⟩ : ∃ k, rt = k + 4 := ⟨rt - 4, by omega⟩
  rfl

/-- Witness for C5: register id 4 on a fresh CPU. -/
theorem c5_mov_register_bound_witness :
    (CPU.new none none).execute (Instruction.new 1 0 0 4 7) =
      (CPU.new none none,
        some (ExecError.invalidRegister 4 ((CPU.new none none).registers.rip + 3))) :=
  c5_mov_register_bound (CPU.new none none) 0 4 7 (by decide) (by decide)

/-- C2 counterexample: on a fresh CPU, the mov (mnemonic 1, modifier 0,
register_from 1, register_to 0, data 5) does fail with the reserved-byte
error, but the first register has been changed from 0 to 5 by the time the
error is returned — the registers are not left unchanged. -/
theorem c2_mov_reserved_counterexample :
    ((CPU.new (some 0) none).execute (Instruction.new 1 0 1 0 5)).2 =
      some (ExecError.nonZeroReservedByte 2) ∧
    ((CPU.new (some 0) none).execute (Instruction.new 1 0 1 0 5)).1.registers.r1 = 5 ∧
    (CPU.new (some 0) none).registers.r1 = 0 := by
  refine ⟨rfl, ?_, rfl⟩
  show u32ToI32 5 = 5
  rfl

/-- C2 amended: a mov with register_from ≠ 0 and register_to in 0-3 fails
with the reserved-byte error, but only after the destination register has
been overwritten with `data` as a signed 32-bit value (the other registers
are untouched); with register_to outside 0-3 it fails with the
invalid-register error instead, and then all registers are unchanged. -/
theorem c2_mov_reserved_amended (cpu : CPU) (rf rt d : Nat) (hrf : rf ≠ 0) :
    (rt < 4 →
      cpu.execute (Instruction.new 1 0 rf rt d) =
        ({ cpu with registers := setReg cpu.registers rt (u32ToI32 d) },
          some (ExecError.nonZeroReservedByte (cpu.registers.rip + 2)))) ∧
    (4 ≤ rt →
      cpu.execute (Instruction.new 1 0 rf rt d) =
        (cpu, some (ExecError.invalidRegister rt (cpu.registers.rip + 3)))) := by
  constructor
  · intro hrt
    rcases rt with _ | _ | _ | _ | rt
    · simp [CPU.execute, Instruction.mov, movCheckReserved, Instruction.new,
        setReg, hrf]
    · simp [CPU.execute, Instruction.mov, movCheckReserved, Instruction.new,
        setReg, hrf]
    · simp [CPU.execute, Instruction.mov, movCheckReserved, Instruction.new,
        setReg, hrf]
    · simp [CPU.execute, Instruction.mov, movCheckReserved, Instruction.new,
        setReg, hrf]
    · omega
  · intro hrt
    obtain ⟨k, rfl⟩ : ∃ k, rt = k + 4 := ⟨rt - 4, by omega⟩
    rfl

/-- Witness for the amended C2 at register_from 1, register_to 0, data 5 and
at register_from 1, register_to 9. -/
theorem c2_mov_reserved_amended_witness :
    (CPU.new none none).execute (Instruction.new 1 0 1 0 5) =
      ({ CPU.new none none with
          registers := setReg (CPU.new none none).registers 0 (u32ToI32 5) },
        some (ExecError.nonZeroReservedByte ((CPU.new none none).registers.rip + 2))) ∧
    (CPU.new none none).execute (Instruction.new 1 0 1 9 5) =
      (CPU.new none none,
        some (ExecError.invalidRegister 9 ((CPU.new none none).registers.rip + 3))) :=
  ⟨(c2_mov_reserved_amended (CPU.new none none) 1 0 5 (by decide)).1 (by decide),
   (c2_mov_reserved_amended (CPU.new none none) 1 9 5 (by decide)).2 (by decide)⟩

/-- C10: execute never touches the memory, the regions, the instruction
pointer or the flags — whichever branch is taken (mov success, any mov
error, unknown mnemonic), only the four general-purpose registers can
change. -/
theorem c10_execute_frame (cpu : CPU) (instr : Instruction) :
    (cpu.execute instr).1.ram = cpu.ram ∧
    (cpu.execute instr).1.flags = cpu.flags ∧
    (cpu.execute instr).1.registers.rip = cpu.registers.rip := by
  rcases instr with ⟨m, md, rf, rt, d⟩
  rcases m with _ | _ | m
  · exact ⟨rfl, rfl, rfl⟩
  · rcases md with _ | md
    · rcases rt with _ | _ | _ | _ | rt <;>
        by_cases h : rf = 0 <;>
        simp [CPU.execute, Instruction.mov, movCheckReserved, h]
    · exact ⟨rfl, rfl, rfl⟩
  · exact ⟨rfl, rfl, rfl⟩

/-- `clamp` is `min`. -/
theorem clamp_eq_min (n max : Nat) : clamp n max = min n max := by
  unfold clamp
  split <;> omega

/-- The buffer length produced by `Memory::new` is the clamped size. -/
theorem Memory.new_memory_length (size : Option Nat)
    (regions : Option (List (SectionType × Nat × Nat))) :
    (Memory.new size regions).memory.length = min (size.getD 0) U32_MAX := by
  simp [Memory.new, clamp_eq_min]

/-- C7 counterexample: for size 2^32 the buffer is clamped to 2^32 - 1 bytes
but the default region still ends at the unclamped 2^32, so the single Data
region does not cover exactly the allocated buffer. -/
theorem c7_memory_new_counterexample :
    (Memory.new (some (2 ^ 32)) none).memory.length = 2 ^ 32 - 1 ∧
    (Memory.new (some (2 ^ 32)) none).regions = [(SectionType.Data, 0, 2 ^ 32)] ∧
    (2 ^ 32 : Nat) ≠ 2 ^ 32 - 1 := by
  refine ⟨?_, rfl, by norm_num⟩
  rw [Memory.new_memory_length]
  norm_num [U32_MAX]

/-- C7 amended: the buffer is zero-filled of length min(size, 2^32 - 1) with
size defaulting to 0, and the default region list is a single Data region
ending at the unclamped size — it covers exactly the allocated buffer
whenever size ≤ 2^32 - 1. -/
theorem c7_memory_new_amended (size : Option Nat) :
    (Memory.new size none).memory =
      List.replicate (min (size.getD 0) (2 ^ 32 - 1)) 0 ∧
    (Memory.new size none).regions = [(SectionType.Data, 0, size.getD 0)] ∧
    (size.getD 0 ≤ 2 ^ 32 - 1 →
      (Memory.new size none).regions =
        [(SectionType.Data, 0, (Memory.new size none).memory.length)]) := by
  refine ⟨?_, rfl, fun h => ?_⟩
  · simp [Memory.new, clamp_eq_min, U32_MAX]
  · simp only [Memory.new, Option.getD_some, List.length_replicate,
      clamp_eq_min, U32_MAX]
    have hmin : min (size.getD 0) (2 ^ 32 - 1) = size.getD 0 := by omega
    rw [hmin]
    rfl

/-- Witness for the amended C7 at size 5. -/
theorem c7_memory_new_amended_witness :
    (Memory.new (some 5) none).memory =
      List.replicate (min 5 (2 ^ 32 - 1)) 0 ∧
    (Memory.new (some 5) none).regions = [(SectionType.Data, 0, 5)] ∧
    (Memory.new (some 5) none).regions =
      [(SectionType.Data, 0, (Memory.new (some 5) none).memory.length)] := by
  have h := c7_memory_new_amended (some 5)
  exact ⟨h.1, h.2.1, h.2.2 (by norm_num)⟩

/-- C9 counterexample: a CPU whose region list holds an empty Code region
[3, 3) — so the region list does yield a first Code region, but a useless
one. The claim says append fails hard here; in fact the scan loop over the
empty range runs zero iterations and append returns silently, a no-op. -/
theorem c9_append_counterexample :
    (CPU.new (some 8) (some [(SectionType.Code, 3, 3)])).append
        (Instruction.new 1 0 0 1 1337) =
      some (CPU.new (some 8) (some [(SectionType.Code, 3, 3)])) := by
  rfl

/-- C9 amended: append fails hard whenever the region list holds no Code
region at all (the unconditional `range[0]` indexing, modeled as `none`);
when the first Code region is present but empty, the scan loop body never
runs and append is a silent no-op rather than a panic. A present non-empty
Code region reaching past the memory can still fail hard later, at the
slot read or write — that panic is not part of this claim. -/
theorem c9_append_amended (cpu : CPU) (instr : Instruction) :
    (cpu.ram.get_range SectionType.Code = [] → cpu.append instr = none) ∧
    (∀ s rest, cpu.ram.get_range SectionType.Code = (s, s) :: rest →
      cpu.append instr = some cpu) := by
  constructor
  · intro h
    simp [CPU.append, h]
  · intro s rest h
    have hsteps : stepAddrs s s = [] := by
      simp [stepAddrs, numSteps]
    simp [CPU.append, h, hsteps, appendLoop]
/-- Witness for the amended C9: a CPU with only the default Data region
(append panics) and a CPU with an empty Code region [5, 5) (append is a
silent no-op). -/
theorem c9_append_amended_witness :
    (CPU.new (some 8) none).append (Instruction.new 1 0 0 1 1337) = none ∧
    (CPU.new (some 8) (some [(SectionType.Code, 5, 5)])).append
        (Instruction.new 1 0 0 1 1337) =
      some (CPU.new (some 8) (some [(SectionType.Code, 5, 5)])) :=
  ⟨(c9_append_amended (CPU.new (some 8) none) (Instruction.new 1 0 0 1 1337)).1 rfl,
   (c9_append_amended (CPU.new (some 8) (some [(SectionType.Code, 5, 5)]))
      (Instruction.new 1 0 0 1 1337)).2 5 [] rfl⟩

/-- The write loop of append: when the target cells are in bounds it
succeeds, preserves the length, stores the given bytes consecutively from
`base` and leaves every other cell unchanged. -/
theorem writeBytes_spec (bs : List Nat) :
    ∀ (mem : List Nat) (base : Nat), base + bs.length ≤ mem.length →
      ∃ mem', writeBytes mem base bs = some mem'
        ∧ mem'.length = mem.length
        ∧ (∀ i, i < bs.length → mem'.getD (base + i) 0 = bs.getD i 0)
        ∧ ∀ j, j < base ∨ base + bs.length ≤ j →
            mem'.getD j 0 = mem.getD j 0 := by
  induction bs with
  | nil =>
    intro mem base h
    exact ⟨mem, rfl, rfl, fun i hi => absurd hi (by simp), fun j _ => rfl⟩
  | cons b rest ih =>
    intro mem base h
    have hlt : base < mem.length := by
      simp only [List.length_cons] at h
      omega
    obtain ⟨mem', heq, hlen, hwr, hfr⟩ := ih (mem.set base b) (base + 1)
      (by simp only [List.length_set, List.length_cons] at h ⊢; omega)
    refine ⟨mem', ?_, ?_, ?_, ?_⟩
    · simpa [writeBytes, hlt] using heq
    · rw [hlen, List.length_set]
    · intro i hi
      rcases i with _ | i
      · rw [Nat.add_zero, hfr base (Or.inl (Nat.lt_succ_self base))]
        simp [List.getD_eq_getElem?_getD, List.getElem?_set_eq_of_lt b hlt]
      · rw [show base + (i + 1) = base + 1 + i from by omega,
          hwr i (by simp only [List.length_cons] at hi; omega)]
        rfl
    · intro j hj
      have hj' : j < base + 1 ∨ base + 1 + rest.length ≤ j := by
        simp only [List.length_cons] at hj
        omega
      have hne : base ≠ j := by
        simp only [List.length_cons] at hj
        omega
      rw [hfr j hj']
      simp [List.getD_eq_getElem?_getD, List.getElem?_set_ne hne]

/-- The spec's free-slot search, in its words: the first step-aligned
address in scan order whose first byte is currently zero. An out-of-bounds
read counts as non-zero; it cannot arise under the bounds hypotheses. -/
def findFreeSlot (mem : List Nat) : List Nat → Option Nat
  | [] => none
  | a :: rest => if mem.getD a 1 = 0 then some a else findFreeSlot mem rest

/-- Unfolding the free-slot search one address at a time. -/
theorem findFreeSlot_cons (mem : List Nat) (x : Nat) (rest : List Nat) :
    findFreeSlot mem (x :: rest) =
      if mem.getD x 1 = 0 then some x else findFreeSlot mem rest := rfl

/-- Unfolding the scan loop one address at a time. -/
theorem appendLoop_cons (bs mem : List Nat) (x : Nat) (rest : List Nat) :
    appendLoop bs mem (x :: rest) =
      match mem[x]? with
      | none => none
      | some b => if b = 0 then writeBytes mem x bs
          else appendLoop bs mem rest := rfl

/-- A found free slot is one of the scanned addresses. -/
theorem findFreeSlot_mem (mem : List Nat) :
    ∀ (addrs : List Nat) (a : Nat), findFreeSlot mem addrs = some a →
      a ∈ addrs := by
  intro addrs
  induction addrs with
  | nil =>
    intro a h
    simp [findFreeSlot] at h
  | cons x rest ih =>
    intro a h
    rw [findFreeSlot_cons] at h
    by_cases hx : mem.getD x 1 = 0
    · rw [if_pos hx, Option.some.injEq] at h
      simp [h]
    · rw [if_neg hx] at h
      simp [ih a h]

/-- The scan loop of append, against the free-slot search: if no scanned
slot is free the loop returns the memory unchanged; if the first free slot
is `a` the loop performs exactly the 8-byte write at `a`. Requires every
scanned address to be a valid read. -/
theorem appendLoop_spec (bs mem : List Nat) :
    ∀ addrs : List Nat, (∀ a ∈ addrs, a < mem.length) →
      (findFreeSlot mem addrs = none → appendLoop bs mem addrs = some mem) ∧
      ∀ a, findFreeSlot mem addrs = some a →
        appendLoop bs mem addrs = writeBytes mem a bs := by
  intro addrs
  induction addrs with
  | nil =>
    intro _
    refine ⟨fun _ => rfl, fun a h => ?_⟩
    simp [findFreeSlot] at h
  | cons x rest ih =>
    intro hin
    have hx : x < mem.length := hin x (List.mem_cons_self x rest)
    have hget : mem[x]? = some (mem.getD x 1) := by
      rw [List.getElem?_eq_getElem hx, List.getD_eq_getElem?_getD,
        List.getElem?_eq_getElem hx]
      rfl
    obtain ⟨ihn, ihs⟩ := ih (fun a ha => hin a (List.mem_cons_of_mem x ha))
    by_cases h0 : mem.getD x 1 = 0
    · refine ⟨fun hnone => ?_, fun a ha => ?_⟩
      · rw [findFreeSlot_cons, if_pos h0] at hnone
        exact absurd hnone (by simp)
      · rw [findFreeSlot_cons, if_pos h0, Option.some.injEq] at ha
        subst ha
        rw [appendLoop_cons, hget]
        show (if mem.getD x 1 = 0 then writeBytes mem x bs
          else appendLoop bs mem rest) = _
        rw [if_pos h0]
    · refine ⟨fun hnone => ?_, fun a ha => ?_⟩
      · rw [findFreeSlot_cons, if_neg h0] at hnone
        rw [← ihn hnone, appendLoop_cons, hget]
        show (if mem.getD x 1 = 0 then writeBytes mem x bs
          else appendLoop bs mem rest) = _
        rw [if_neg h0]
      · rw [findFreeSlot_cons, if_neg h0] at ha
        rw [← ihs a ha, appendLoop_cons, hget]
        show (if mem.getD x 1 = 0 then writeBytes mem x bs
          else appendLoop bs mem rest) = _
        rw [if_neg h0]

/-- C8: append scans the first Code region in 8-byte steps from its start.
If some scanned slot has a zero first byte, the 8 encoded instruction bytes
are written at the first such slot and every other memory byte, the region
list, the registers and the flags are unchanged; if no scanned slot is
free, append returns silently having written nothing. The hypothesis bounds
every scanned slot inside memory (otherwise the source panics, claim C9's
territory). -/
theorem c8_append_first_free_slot (cpu : CPU) (instr : Instruction)
    (s e : Nat) (rest : List (Nat × Nat))
    (hrange : cpu.ram.get_range SectionType.Code = (s, e) :: rest)
    (hslots : ∀ a ∈ stepAddrs s e, a + 8 ≤ cpu.ram.memory.length) :
    ∃ cpu', cpu.append instr = some cpu'
      ∧ cpu'.ram.regions = cpu.ram.regions
      ∧ cpu'.registers = cpu.registers
      ∧ cpu'.flags = cpu.flags
      ∧ cpu'.ram.memory.length = cpu.ram.memory.length
      ∧ match findFreeSlot cpu.ram.memory (stepAddrs s e) with
        | some a =>
            (∀ i, i < 8 →
              cpu'.ram.memory.getD (a + i) 0 = instr.as_bytes.getD i 0)
          ∧ ∀ j, j < a ∨ a + 8 ≤ j →
              cpu'.ram.memory.getD j 0 = cpu.ram.memory.getD j 0
        | none => cpu'.ram.memory = cpu.ram.memory := by
  have hbs : instr.as_bytes.length = 8 := by
    simp [Instruction.as_bytes, u32ToBeBytes]
  have happ : cpu.append instr =
      match appendLoop instr.as_bytes cpu.ram.memory (stepAddrs s e) with
      | none => none
      | some mem => some { cpu with ram := { cpu.ram with memory := mem } } := by
    unfold CPU.append
    rw [hrange]
  obtain ⟨hnone, hsome⟩ := appendLoop_spec instr.as_bytes cpu.ram.memory
    (stepAddrs s e) (fun a ha => by have := hslots a ha; omega)
  cases hfs : findFreeSlot cpu.ram.memory (stepAddrs s e) with
  | none =>
    refine ⟨cpu, ?_, rfl, rfl, rfl, rfl, ?_⟩
    · rw [happ, hnone hfs]
    · simp only [hfs]
  | some a =>
    have ha_mem : a ∈ stepAddrs s e := findFreeSlot_mem _ _ a hfs
    have hwlen : a + instr.as_bytes.length ≤ cpu.ram.memory.length := by
      rw [hbs]
      exact hslots a ha_mem
    obtain ⟨mem', hw, hlen', hwr, hfr⟩ :=
      writeBytes_spec instr.as_bytes cpu.ram.memory a hwlen
    refine ⟨{ cpu with ram := { cpu.ram with memory := mem' } },
      ?_, rfl, rfl, rfl, hlen', ?_⟩
    · rw [happ, hsome a hfs, hw]
    · simp only [hfs]
      refine ⟨fun i hi => hwr i (by rw [hbs]; exact hi),
        fun j hj => hfr j (by rw [hbs]; exact hj)⟩

/-- Witness for C8: a 16-byte memory whose whole extent is one Code region;
the instruction lands in the first slot. -/
theorem c8_append_first_free_slot_witness :
    ∃ cpu', (CPU.new (some 16) (some [(SectionType.Code, 0, 16)])).append
        (Instruction.new 1 0 0 2 258) = some cpu'
      ∧ cpu'.ram.regions =
          (CPU.new (some 16) (some [(SectionType.Code, 0, 16)])).ram.regions
      ∧ cpu'.registers =
          (CPU.new (some 16) (some [(SectionType.Code, 0, 16)])).registers
      ∧ cpu'.flags = (CPU.new (some 16) (some [(SectionType.Code, 0, 16)])).flags
      ∧ cpu'.ram.memory.length =
          (CPU.new (some 16) (some [(SectionType.Code, 0, 16)])).ram.memory.length
      ∧ match findFreeSlot
          (CPU.new (some 16) (some [(SectionType.Code, 0, 16)])).ram.memory
          (stepAddrs 0 16) with
        | some a =>
            (∀ i, i < 8 → cpu'.ram.memory.getD (a + i) 0 =
              (Instruction.new 1 0 0 2 258).as_bytes.getD i 0)
          ∧ ∀ j, j < a ∨ a + 8 ≤ j → cpu'.ram.memory.getD j 0 =
              (CPU.new (some 16) (some [(SectionType.Code, 0, 16)])).ram.memory.getD j 0
        | none => cpu'.ram.memory =
            (CPU.new (some 16) (some [(SectionType.Code, 0, 16)])).ram.memory :=
  c8_append_first_free_slot (CPU.new (some 16) (some [(SectionType.Code, 0, 16)]))
    (Instruction.new 1 0 0 2 258) 0 16 [] rfl (by decide)

/-- The demonstration wiring of `main`: memory size 1504, Code region
[0, 501), Data region [501, 1504). -/
def exampleCPU : CPU :=
  CPU.new (some 1504)
    (some [(SectionType.Code, 0, 501), (SectionType.Data, 501, 1504)])

/-- The demonstration instruction: mov 1337 into the second register. -/
def exampleInstr : Instruction := Instruction.new 1 0 0 1 1337

/-- The demonstration CPU after the append (total by falling back to
`exampleCPU`; the append does succeed, as the C1 theorem states). -/
def exampleCpu1 : CPU :=
  match exampleCPU.append exampleInstr with
  | some c => c
  | none => exampleCPU

/-- The CPU state carried by the error that ends the demonstration run. -/
def exampleFinal : CPU :=
  match exampleCpu1.run with
  | RunOutcome.ok c => c
  | RunOutcome.error _ c => c
  | RunOutcome.panic => exampleCpu1

set_option maxRecDepth 100000 in
/-- C1: on the demonstration CPU, append places the encoded mov at address
0; the run fetches it at program counter 0, decodes it back, and executing
it sets the second register to 1337 without error (the program counter then
advances to 8); the next fetch at 8 returns eight zero bytes, which decode
successfully to the all-zero instruction, whose mnemonic 0 fails execute;
the run terminates with the invalid-mnemonic error for mnemonic 0 at
address 8, leaving the second register at 1337, the other three at 0 and
the program counter at 8. -/
theorem c1_end_to_end_scenario :
    exampleCPU.append exampleInstr = some exampleCpu1
    ∧ exampleCpu1.fetch 0 = some [1, 0, 0, 1, 0, 0, 5, 57]
    ∧ CPU.decode [1, 0, 0, 1, 0, 0, 5, 57] = some exampleInstr
    ∧ exampleCpu1.execute exampleInstr =
        ({ exampleCpu1 with registers :=
            { exampleCpu1.registers with r2 := 1337 } }, none)
    ∧ exampleCpu1.fetch 8 = some [0, 0, 0, 0, 0, 0, 0, 0]
    ∧ CPU.decode [0, 0, 0, 0, 0, 0, 0, 0] = some (Instruction.new 0 0 0 0 0)
    ∧ exampleCpu1.run =
        RunOutcome.error (RunError.exec (ExecError.invalidMnemonic 0 8))
          exampleFinal
    ∧ exampleFinal.registers.r2 = 1337
    ∧ exampleFinal.registers.r1 = 0
    ∧ exampleFinal.registers.r3 = 0
    ∧ exampleFinal.registers.r4 = 0
    ∧ exampleFinal.registers.rip = 8 :=
  ⟨rfl, rfl, rfl, rfl, rfl, rfl, rfl, rfl, rfl, rfl, rfl, rfl⟩
